import Mathlib

/-!
Verification development for the row-normalization core of the
`route66guns/ammocsvcervelle` catalog builder.

The repository contains two variants of the builder:
* `src/catalog_builder/build.py` (the package variant, with `clean_title`,
  `smart_title`, `clean_feature`, `detect_columns`, `row_instock`);
* `src/build.py` (the flat variant, with the same column/stock logic inline
  and no title cleaning beyond a placeholder fallback).

This file shallowly embeds both per-row pipelines.  Strings are embedded as
`List Char` (with `String` wrappers at the record level).  Scope notes:

* Character case/whitespace classes follow the ASCII fragment of Python
  semantics (`str.lower`, `str.upper`, `str.capitalize`, `str.strip`,
  regex `\s`, `\w`, `\d`, `\b`); the inventory data is ASCII.
* `float(x)` is embedded as an exact decimal parser into `Rat`
  (optional sign, digits, optional fractional part, surrounding
  whitespace), i.e. the decimal notation the spec describes; binary
  floating-point rounding and the exotic float syntaxes (exponents,
  `inf`, `nan`, underscores) are out of scope and parse as failures.
* Regex fragments used by the source (`\b\d{2,3}/\d{1,3}\b`,
  `\b(\d{2,3})\s*MM\b`, `^desc\d+a?$`, `^\d+mm$`, `^\.\d+`,
  `^\d+(\.\d+)?(gr|grain|in)$`, `re.split(r"(\s+|-|/)", s)`) are embedded
  as deterministic scanners.  Where the regex engine would backtrack, the
  embedding uses the equivalent maximal-run formulation; the equivalence
  is noted at each definition.
-/

/-- ASCII decimal digit, i.e. regex `\d` on ASCII input. -/
def isDigitC (c : Char) : Bool := '0' ≤ c && c ≤ '9'

/-- ASCII uppercase letter (Python `str.isupper` per character, ASCII). -/
def isUpperC (c : Char) : Bool := 'A' ≤ c && c ≤ 'Z'

/-- ASCII lowercase letter. -/
def isLowerC (c : Char) : Bool := 'a' ≤ c && c ≤ 'z'

/-- ASCII cased character (a letter). -/
def isCasedC (c : Char) : Bool := isUpperC c || isLowerC c

/-- Python whitespace for `str.strip` / regex `\s` (ASCII fragment):
space, tab, newline, carriage return, vertical tab, form feed. -/
def isWS (c : Char) : Bool :=
  c == ' ' || c == '\t' || c == '\n' || c == '\r' || c == '\x0b' || c == '\x0c'

/-- Regex `\w` word character (ASCII fragment): letter, digit or underscore. -/
def isWordC (c : Char) : Bool := isCasedC c || isDigitC c || c == '_'

/-- ASCII lowercasing of one character (Python `str.lower`, ASCII). -/
def toLowerC (c : Char) : Char := if isUpperC c then Char.ofNat (c.toNat + 32) else c

/-- ASCII uppercasing of one character (Python `str.upper`, ASCII). -/
def toUpperC (c : Char) : Char := if isLowerC c then Char.ofNat (c.toNat - 32) else c

/-- Python `str.lstrip()` on a character list. -/
def stripL (l : List Char) : List Char := l.dropWhile isWS

/-- Python `str.strip()` on a character list: drop whitespace at both ends. -/
def pyStrip (l : List Char) : List Char := (stripL ((stripL l).reverse)).reverse

/-- Python `str.strip(chars)` for an explicit character set (used for
`s.strip(" -")` in `clean_title`). -/
def pyStripChars (cs : List Char) (l : List Char) : List Char :=
  ((l.dropWhile (fun c => cs.contains c)).reverse.dropWhile
    (fun c => cs.contains c)).reverse

/-- Scanner state for `re.sub(r"\s+", " ", s)`: the flag records whether the
scanner is inside a whitespace run whose single replacement space was
already emitted. -/
def collapseWSAux : Bool → List Char → List Char
  | _, [] => []
  | inRun, c :: rest =>
    if isWS c then
      if inRun then collapseWSAux true rest
      else ' ' :: collapseWSAux true rest
    else c :: collapseWSAux false rest

/-- Embedding of `re.sub(r"\s+", " ", s)`: every maximal whitespace run
(also a single non-space whitespace character) becomes one space. -/
def collapseWS (l : List Char) : List Char := collapseWSAux false l

/-- Scanner state for `re.sub(r"\s{2,}", " ", s)`: either clean, or holding
one pending whitespace character that may still begin a run of length two,
or inside a run whose replacement was already decided. -/
inductive WSState where
  | clean : WSState
  | pend : Char → WSState
  | run : WSState

/-- Scanner for `re.sub(r"\s{2,}", " ", s)`: a maximal whitespace run of
length at least two becomes one space; a lone whitespace character is kept
as it is. -/
def collapse2Aux : WSState → List Char → List Char
  | .clean, [] => []
  | .pend w, [] => [w]
  | .run, [] => [' ']
  | .clean, c :: rest =>
    if isWS c then collapse2Aux (.pend c) rest else c :: collapse2Aux .clean rest
  | .pend w, c :: rest =>
    if isWS c then collapse2Aux .run rest else w :: c :: collapse2Aux .clean rest
  | .run, c :: rest =>
    if isWS c then collapse2Aux .run rest else ' ' :: c :: collapse2Aux .clean rest

/-- Embedding of `re.sub(r"\s{2,}", " ", s)`. -/
def collapse2 (l : List Char) : List Char := collapse2Aux .clean l

/-- Numeric value of a digit run. -/
def digitsVal (ds : List Char) : Nat :=
  ds.foldl (fun a c => a * 10 + (c.toNat - '0'.toNat)) 0

/-- Embedding of Python `float(s)` restricted to plain decimal notation:
optional surrounding whitespace, optional sign, then `digits`,
`digits.digits`, `digits.` or `.digits`.  Anything else (including
exponent notation, `inf`, `nan`, underscores) is a parse failure, which the
source always catches.  Exact rational semantics stand in for binary
floating point; the difference cannot affect the claims below, which only
truncate short decimals. -/
def pyFloat (l : List Char) : Option Rat :=
  let t := pyStrip l
  let signed : Bool × List Char :=
    match t with
    | '+' :: r => (false, r)
    | '-' :: r => (true, r)
    | r => (false, r)
  let neg := signed.1
  let r := signed.2
  let signedInt : Nat → Int :=
    fun n => if neg then -(Int.ofNat n) else Int.ofNat n
  let ds1 := r.takeWhile isDigitC
  let r1 := r.dropWhile isDigitC
  match r1 with
  | [] =>
    if ds1.isEmpty then none else some (mkRat (signedInt (digitsVal ds1)) 1)
  | '.' :: r2 =>
    let ds2 := r2.takeWhile isDigitC
    if (r2.dropWhile isDigitC).isEmpty then
      if ds1.isEmpty && ds2.isEmpty then none
      else some (mkRat
        (signedInt (digitsVal ds1 * 10 ^ ds2.length + digitsVal ds2))
        (10 ^ ds2.length))
    else none
  | _ => none

/-- Truncation toward zero, the semantics of Python `int(float(x))`: on a
reduced fraction this is truncated division of the numerator by the
denominator. -/
def truncRat (q : Rat) : Int := Int.tdiv q.num (Int.ofNat q.den)

/-- Acronym exception table of `smart_title` (source line 4). -/
def ACRONYMS : List (List Char) :=
  ["CCI", "FMJ", "JHP", "JSP", "TMJ", "HST", "PSP", "LR", "WMR", "ACP",
   "NATO", "HP", "SP", "HMR", "V-MAX", "Vmax"].map String.data

/-- Test for `re.match(r"^\d+mm$", t)`: one or more digits followed by
exactly `mm`.  The regex is deterministic: `\d+` is the maximal digit run
because `m` is not a digit. -/
def matchNumMM (l : List Char) : Bool :=
  !(l.takeWhile isDigitC).isEmpty && l.dropWhile isDigitC == ['m', 'm']

/-- Test for `re.match(r"^\.\d+", t)`: a literal dot followed by at least
one digit (not anchored at the end). -/
def matchDotNum (l : List Char) : Bool :=
  match l with
  | '.' :: c :: _ => isDigitC c
  | _ => false

/-- The alternation `(gr|grain|in)$` of the measurement-token regex. -/
def unitSuffixOk (r : List Char) : Bool :=
  r == ['g', 'r'] || r == ['g', 'r', 'a', 'i', 'n'] || r == ['i', 'n']

/-- Test for `re.match(r"^\d+(\.\d+)?(gr|grain|in)$", t)`.  Backtracking
cannot arise: the digit runs are maximal, and when the optional fractional
group is present the remainder starts with a dot, which no alternative of
the final alternation accepts. -/
def matchUnitTok (l : List Char) : Bool :=
  let r := l.dropWhile isDigitC
  !(l.takeWhile isDigitC).isEmpty &&
    (unitSuffixOk r ||
      (match r with
       | '.' :: r2 =>
         !(r2.takeWhile isDigitC).isEmpty && unitSuffixOk (r2.dropWhile isDigitC)
       | _ => false))

/-- Python `str.capitalize()` (ASCII): first character uppercased, the rest
lowercased. -/
def pyCapitalize : List Char → List Char
  | [] => []
  | c :: rest => toUpperC c :: rest.map toLowerC

/-- The token fixer of `smart_title` (source lines 12-18), applied to each
non-delimiter token. -/
def fix_token (t : List Char) : List Char :=
  if ACRONYMS.contains (t.map toUpperC) then t.map toUpperC
  else if matchNumMM (t.map toLowerC) then t.map toLowerC
  else if matchDotNum t then t
  else if matchUnitTok (t.map toLowerC) then t.map toLowerC
  else pyCapitalize t

/-- Delimiter characters of `re.split(r"(\s+|-|/)", s)`. -/
def isDelimC (c : Char) : Bool := isWS c || c == '-' || c == '/'

/-- Scanner for `smart_title`: splits on whitespace runs, `-` and `/`
(keeping the delimiters), applies `fix_token` to every non-delimiter token
and rejoins.  `acc` holds the current token in reverse. -/
def smartAux (acc : List Char) : List Char → List Char
  | [] => if acc.isEmpty then [] else fix_token acc.reverse
  | c :: rest =>
    if isDelimC c then
      if acc.isEmpty then c :: smartAux [] rest
      else fix_token acc.reverse ++ c :: smartAux [] rest
    else smartAux (c :: acc) rest

/-- Embedding of `smart_title` (source lines 10-20). -/
def smart_title (l : List Char) : List Char := smartAux [] l

/-- Attempted match of `\d{2,3}/\d{1,3}\b` at the head of `l` (the caller
has already checked the left word boundary).  Returns the total number of
matched characters.  Regex backtracking is equivalent to this maximal-run
formulation: if the leading digit run is longer than three, every
quantifier choice leaves a digit where `/` is required; if the run after
the slash is longer than three, every choice leaves a digit where the word
boundary is required; shorter choices than the maximal run fail the next
requirement for the same reason. -/
def packMatch (l : List Char) : Option Nat :=
  let ds1 := l.takeWhile isDigitC
  if ds1.length == 2 || ds1.length == 3 then
    match l.dropWhile isDigitC with
    | '/' :: r2 =>
      let ds2 := r2.takeWhile isDigitC
      if 1 ≤ ds2.length && ds2.length ≤ 3 then
        match r2.dropWhile isDigitC with
        | [] => some (ds1.length + 1 + ds2.length)
        | c :: _ => if isWordC c then none else some (ds1.length + 1 + ds2.length)
      else none
    | _ => none
  else none

/-- Scanner for `re.sub(r"\b\d{2,3}/\d{1,3}\b", "", s)`.  `skip` counts
characters of an already-matched region still to be consumed (they are
dropped); `prevWord` records whether the previously consumed character is a
word character, which decides the left boundary `\b`.  The scan resumes
after each match in the original string, as `re.sub` does. -/
def packSubAux : Nat → Bool → List Char → List Char
  | _, _, [] => []
  | k + 1, _, c :: rest => packSubAux k (isWordC c) rest
  | 0, prevWord, c :: rest =>
    if !prevWord && isDigitC c then
      match packMatch (c :: rest) with
      | some n => packSubAux (n - 1) (isWordC c) rest
      | none => c :: packSubAux 0 (isWordC c) rest
    else c :: packSubAux 0 (isWordC c) rest

/-- Embedding of `re.sub(r"\b\d{2,3}/\d{1,3}\b", "", s)` (source line 28).
A match can only start at a digit with no word character before it. -/
def packSub (l : List Char) : List Char := packSubAux 0 false l

/-- Attempted match of `(\d{2,3})\s*U₁U₂\b` (case-insensitive unit letters)
at the head of `l`, the left boundary having been checked by the caller.
Returns the captured digit run and the total number of matched characters.
As with `packMatch`, the maximal-run formulation is equivalent to the
backtracking regex: a digit run longer than three leaves a digit where the
unit letter is required, and `\s*` is determined because the unit letter is
not whitespace. -/
def unitMatch (u1 u2 : Char) (l : List Char) : Option (List Char × Nat) :=
  let ds := l.takeWhile isDigitC
  if ds.length == 2 || ds.length == 3 then
    let r1 := l.dropWhile isDigitC
    let ws := r1.takeWhile isWS
    match r1.dropWhile isWS with
    | a :: b :: r3 =>
      if toLowerC a == u1 && toLowerC b == u2 then
        match r3 with
        | [] => some (ds, ds.length + ws.length + 2)
        | c :: _ =>
          if isWordC c then none else some (ds, ds.length + ws.length + 2)
      else none
    | _ => none
  else none

/-- Scanner for `re.sub(r"\b(\d{2,3})\s*U₁U₂\b", r"\1u₁u₂", s, flags=re.I)`
with the same `skip`/`prevWord` discipline as `packSubAux`; on a match the
replacement (digits followed by the lowercase unit) is emitted and the
matched region is consumed. -/
def unitSubAux (u1 u2 : Char) : Nat → Bool → List Char → List Char
  | _, _, [] => []
  | k + 1, _, c :: rest => unitSubAux u1 u2 k (isWordC c) rest
  | 0, prevWord, c :: rest =>
    if !prevWord && isDigitC c then
      match unitMatch u1 u2 (c :: rest) with
      | some (ds, n) => ds ++ u1 :: u2 :: unitSubAux u1 u2 (n - 1) (isWordC c) rest
      | none => c :: unitSubAux u1 u2 0 (isWordC c) rest
    else c :: unitSubAux u1 u2 0 (isWordC c) rest

/-- Embedding of `re.sub(r"\b(\d{2,3})\s*MM\b", r"\1mm", s, flags=re.I)`
(source line 36). -/
def subMM (l : List Char) : List Char := unitSubAux 'm' 'm' 0 false l

/-- Embedding of `re.sub(r"\b(\d{2,3})\s*GR\b", r"\1gr", s, flags=re.I)`
(source line 37). -/
def subGR (l : List Char) : List Char := unitSubAux 'g' 'r' 0 false l

/-- Python `str.isupper()` (ASCII): at least one cased character and no
lowercase one. -/
def pyIsUpper (l : List Char) : Bool := l.any isCasedC && !(l.any isLowerC)

/-- The recasing guard of `clean_title` (source line 33): fully uppercase,
or strictly more uppercase than lowercase letters. -/
def upperNoise (l : List Char) : Bool :=
  pyIsUpper l || l.countP (fun c => isUpperC c) > l.countP (fun c => isLowerC c)

/-- Embedding of `clean_title` (source lines 22-40) on character lists; the
manufacturer argument is a list, `[]` standing for Python `None` or `""`
(both falsy).  The steps mirror the source line by line. -/
def cleanTitleL (raw : List Char) (manufacturer : List Char) : List Char :=
  let s0 := pyStrip raw
  let s1 := collapse2 (collapseWS s0)
  let s2 := pyStrip (packSub s1)
  let s3 :=
    if !manufacturer.isEmpty &&
        (s2.map toUpperC).take manufacturer.length == manufacturer.map toUpperC then
      pyStripChars [' ', '-'] (s2.drop manufacturer.length)
    else s2
  let s4 := if upperNoise s3 then smart_title (s3.map toLowerC) else s3
  let s5 := subGR (subMM s4)
  let s6 := pyStrip (collapse2 s5)
  if s6.isEmpty then "Untitled".data else s6

/-- String-level `clean_title`, `none` standing for the default
`manufacturer=None`. -/
def clean_title (raw : String) (manufacturer : Option String) : String :=
  String.mk (cleanTitleL raw.data (match manufacturer with
    | some m => m.data
    | none => []))

/-- Embedding of `clean_feature` (source lines 42-47): strip, collapse
whitespace runs of length at least two, then `smart_title` (without
lowercasing). -/
def cleanFeatureL (l : List Char) : List Char :=
  smart_title (collapse2 (pyStrip l))

/-- String-level `clean_feature`. -/
def clean_feature (s : String) : String := String.mk (cleanFeatureL s.data)

/-- Python `c.lower().strip()` on a string. -/
def pyLowerStrip (c : String) : String := String.mk (pyStrip (c.data.map toLowerC))

/-- Test for `re.match(r"^desc\d+a?$", lc)` (source line 111 of the package
variant, line 70 of the flat one): the literal `desc`, one or more digits,
then optionally the single letter `a`.  Deterministic: `\d+` is maximal
since `a` is not a digit. -/
def matchDesc (l : List Char) : Bool :=
  l.take 4 == ['d', 'e', 's', 'c'] &&
    (!((l.drop 4).takeWhile isDigitC).isEmpty &&
      ((l.drop 4).dropWhile isDigitC == [] ||
        (l.drop 4).dropWhile isDigitC == ['a']))

/-- Embedding of the desc-column detection loop (source lines 107-112):
keep, in column order, the columns whose lowered and stripped name matches
the pattern. -/
def desc_cols (cols : List String) : List String :=
  cols.filter (fun c => matchDesc (pyLowerStrip c).data)

/-- The canonical fields of the column alias table (source lines 51-60). -/
inductive ColKey where
  | sku | partno | title | manufacturer | category | price
  | onhand_new | onhand_used
deriving DecidableEq

/-- The alias table: canonical field to its raw-name variants, in declared
priority order (source lines 51-60, identical in both variants). -/
def aliasOf : ColKey → List String
  | .sku => ["sku", "upc", "barcode"]
  | .partno => ["partno", "part_no", "mpn"]
  | .title => ["description", "title", "name"]
  | .manufacturer => ["manufacturer", "brand", "mfg"]
  | .category => ["category", "dept", "department"]
  | .price => ["store_price", "price", "msrp"]
  | .onhand_new => ["onhand new", "onhand_new", "qty", "quantity", "stock", "onhand"]
  | .onhand_used => ["onhand used", "onhand_used"]

/-- Lookup in the dict `{c.lower().strip(): c for c in df.columns}`: the
comprehension lets a later column overwrite an earlier one with the same
lowered name, so the last matching column wins. -/
def lowerDictGet (cols : List String) (k : String) : Option String :=
  cols.reverse.find? (fun c => pyLowerStrip c == k)

/-- Embedding of `find_col` (source lines 61-63): lower and strip the key,
then look it up in the lowered-name dict. -/
def find_col (cols : List String) (key : String) : Option String :=
  lowerDictGet cols (pyLowerStrip key)

/-- The inner loop of `detect_columns` (source lines 65-70): try the
variants in declared order, take the first hit and stop.  Python tests the
result with `if c:`, so a column literally named the empty string is
rejected and the scan moves to the next variant. -/
def firstHit (cols : List String) : List String → Option String
  | [] => none
  | v :: rest =>
    match find_col cols v with
    | some c => if c == "" then firstHit cols rest else some c
    | none => firstHit cols rest

/-- Embedding of `detect_columns` (source lines 49-71): the resolved map
from canonical field to raw column name, `none` when no variant matches.
The flat variant (src/build.py lines 36-64) builds the same map with the
same alias table and loop. -/
def detect_columns (cols : List String) (f : ColKey) : Option String :=
  firstHit cols (aliasOf f)

/-- A raw scalar cell: missing (pandas `NaN`) or a string.  CSV cells are
text; pandas dtype inference is out of scope (see the header). -/
inductive Cell where
  | na : Cell
  | str : String → Cell
deriving DecidableEq

/-- A raw row: the dataset columns in declaration order, each with its
cell.  Column resolution runs on the schema, i.e. the key list. -/
def Row : Type := List (String × Cell)

/-- The schema of a row: its column names in order. -/
def rowCols (r : Row) : List String := r.map Prod.fst

/-- Indexing `row[c]` on a data-frame row: every schema column is present;
a missing cell is `NaN`.  Lookup of a column outside the schema yields
`NaN` as well (the builders only index resolved columns). -/
def rowGet (r : Row) (c : String) : Cell :=
  match r.find? (fun p => p.1 == c) with
  | some p => p.2
  | none => Cell.na

/-- Membership test `c in row` (index membership on a pandas row). -/
def rowHas (r : Row) (c : String) : Bool :=
  (r.find? (fun p => p.1 == c)).isSome

/-- Python `pd.notna`. -/
def cellNotna (v : Cell) : Bool :=
  match v with
  | .na => false
  | .str _ => true

/-- Python `str(v)` on a cell (`str(float("nan")) = "nan"`). -/
def pyCellStr (v : Cell) : String :=
  match v with
  | .na => "nan"
  | .str s => s

/-- Python truthiness of a cell value: the empty string is falsy, any other
string truthy; a float `NaN` is truthy. -/
def cellTruthy (v : Cell) : Bool :=
  match v with
  | .na => true
  | .str s => s ≠ ""

/-- The coerced contribution of one on-hand cell: `int(float(v))`, with the
`try`/`except: pass` of the source turning a parse failure into 0. -/
def onhandVal (v : Cell) : Int :=
  match v with
  | .na => 0
  | .str s =>
    match pyFloat s.data with
    | some q => truncRat q
    | none => 0

/-- One guarded summand of `row_instock`: the branch
`if col[k] and pd.notna(row[col[k]]): try: v += int(float(...)) except: pass`
of the source, as a value. -/
def onhandPart (row : Row) (o : Option String) : Int :=
  match o with
  | some c =>
    if c != "" && cellNotna (rowGet row c) then onhandVal (rowGet row c) else 0
  | none => 0

/-- Embedding of `row_instock` (source lines 73-81, identical in the flat
variant): sum the resolved on-hand-new and on-hand-used cells, each guarded
by column truthiness and `pd.notna`, coerced by `int(float(.))` with
failures contributing 0. -/
def row_instock (row : Row) (col : ColKey → Option String) : Int :=
  onhandPart row (col ColKey.onhand_new) + onhandPart row (col ColKey.onhand_used)

/-- Round half to even at integer precision (the rounding of Python float
formatting, idealized on exact rationals). -/
def roundHE (q : Rat) : Int :=
  let f := q.floor
  let r := q - (f : Rat)
  if r < 1 / 2 then f
  else if 1 / 2 < r then f + 1
  else if f % 2 = 0 then f else f + 1

/-- Insert thousands separators into a reversed digit list; `k` counts the
digits emitted since the last separator. -/
def groupRev : List Char → Nat → List Char
  | [], _ => []
  | c :: rest, k =>
    if k == 3 then ',' :: c :: groupRev rest 1 else c :: groupRev rest (k + 1)

/-- Digits of `n` with thousands separators, as in `f"{x:,.2f}"`. -/
def groupDigits (n : Nat) : List Char :=
  (groupRev (Nat.toDigits 10 n).reverse 0).reverse

/-- Two-digit rendering of a cents remainder. -/
def twoDigits (n : Nat) : List Char :=
  if n < 10 then '0' :: Nat.toDigits 10 n else Nat.toDigits 10 n

/-- Currency formatting `f"${x:,.2f}"`: sign, grouped integer part, exactly
two decimals, rounding half to even at the cent. -/
def formatUSD (q : Rat) : String :=
  let cents := roundHE (q * 100)
  let n := cents.natAbs
  String.mk ('$' :: (if q < 0 then ['-'] else []) ++
    groupDigits (n / 100) ++ '.' :: twoDigits (n % 100))

/-- Embedding of `as_price` (source lines 83-88): `None` on parse failure.
On a missing cell Python would format the float `nan` itself; both builders
guard the call with `pd.notna`, so that branch is unreachable. -/
def as_price (v : Cell) : Option String :=
  match v with
  | .na => some "$nan"
  | .str s => (pyFloat s.data).map formatUSD

/-- Text-field extraction of the package builder (source lines 128-132):
`str(r[c]) if c and pd.notna(r[c]) else ""`. -/
def textField (row : Row) (c : Option String) : String :=
  match c with
  | some cc =>
    if cc ≠ "" && cellNotna (rowGet row cc) then pyCellStr (rowGet row cc) else ""
  | none => ""

/-- The raw title extraction of the package builder (source line 127):
`(str(r[col]) if col else "") if col in r else ""`; no `pd.notna` guard, so
a missing cell reads as the string `nan`. -/
def raw_title_of (row : Row) (tcol : Option String) : String :=
  match tcol with
  | none => ""
  | some c =>
    if rowHas row c then (if c ≠ "" then pyCellStr (rowGet row c) else "") else ""

/-- The price extraction of the package builder (source line 133) combined
with the dict default `price_str or ""` (source line 160). -/
def price_str_of (row : Row) (pcol : Option String) : String :=
  match pcol with
  | some c =>
    if c ≠ "" && cellNotna (rowGet row c) then (as_price (rowGet row c)).getD ""
    else ""
  | none => ""

/-- The stripped desc-column values of a row that pass the guard
`pd.notna(val) and str(val).strip()` (source lines 139-143), in column
order. -/
def featVals (row : Row) : List String :=
  (desc_cols (rowCols row)).filterMap (fun dc =>
    let v := rowGet row dc
    if cellNotna v && !(pyStrip (pyCellStr v).data).isEmpty then
      some (String.mk (pyStrip (pyCellStr v).data))
    else none)

/-- The deduplication key `f.lower()` (source line 147). -/
def lowerKey (s : String) : String := String.mk (s.data.map toLowerC)

/-- The case-insensitive order-preserving deduplication loop (source lines
145-149): `seen` is the set of lowered keys already kept. -/
def dedupAux (seen : List String) : List String → List String
  | [] => []
  | f :: rest =>
    if seen.contains (lowerKey f) then dedupAux seen rest
    else f :: dedupAux (lowerKey f :: seen) rest

/-- Deduplicate, keeping the first occurrence of each lowercase key. -/
def dedupCI (l : List String) : List String := dedupAux [] l

/-- The canonical product record assembled per row (dict at source lines
154-165).  `stock_quantity` is the computed stock value (the `_stock`
column of the source); the dict keeps it only through `in_stock` and
`stock_note`, while the specification lists it as a record field. -/
structure Record where
  sku : String
  title : String
  manufacturer : String
  category : String
  partno : String
  price_str : String
  stock_quantity : Int
  in_stock : Bool
  stock_note : String
  features : List String
  keywords : String

/-- The configuration consumed per row: `--min_stock` and
`--no_clean_names` (the flat variant has no `--no_clean_names`). -/
structure Config where
  min_stock : Int
  no_clean_names : Bool

/-- The default configuration (`--min_stock 1`, cleaning enabled). -/
def defaultConfig : Config := ⟨1, false⟩

/-- Embedding of the per-row body of the package builder's `main`
(src/catalog_builder/build.py lines 126-165). -/
def build_record (cfg : Config) (row : Row) : Record :=
  let col := detect_columns (rowCols row)
  let raw_title := raw_title_of row (col ColKey.title)
  let manufacturer := textField row (col ColKey.manufacturer)
  let title :=
    if cfg.no_clean_names then (if raw_title == "" then "Untitled" else raw_title)
    else clean_title raw_title (some manufacturer)
  let sku := textField row (col ColKey.sku)
  let category := textField row (col ColKey.category)
  let partno := textField row (col ColKey.partno)
  let stock := row_instock row col
  let features := dedupCI ((featVals row).map clean_feature)
  { sku := sku
    title := title
    manufacturer := manufacturer
    category := category
    partno := partno
    price_str := price_str_of row (col ColKey.price)
    stock_quantity := stock
    in_stock := cfg.min_stock ≤ stock
    stock_note := if stock > 0 then "In stock: " ++ toString stock else "Out of stock"
    features := features.take 8
    keywords := String.intercalate " "
      (features ++ [sku, partno, manufacturer, category].filter (fun s => s ≠ "")) }

/-- Embedding of `coalesce` (src/build.py lines 7-11): the first key that
is present with a non-NA value, else `None`. -/
def coalesce (r : Row) (keys : List String) : Option Cell :=
  match keys.find? (fun k => rowHas r k && cellNotna (rowGet r k)) with
  | some k => some (rowGet r k)
  | none => none

/-- The title expression of the flat builder (src/build.py line 101).  By
Python precedence it parses as
`(coalesce(r, [col]) or f"SKU {sku}") if sku else "Untitled"`:
with a falsy sku the title is `"Untitled"` even when a title value exists. -/
def flatTitle (titleVal : Option Cell) (skuVal : Option Cell) : String :=
  let skuTruthy := match skuVal with
    | some v => cellTruthy v
    | none => false
  if skuTruthy then
    match titleVal with
    | some tv =>
      if cellTruthy tv then pyCellStr tv
      else "SKU " ++ pyCellStr (skuVal.getD Cell.na)
    | none => "SKU " ++ pyCellStr (skuVal.getD Cell.na)
  else "Untitled"

/-- Coalesced value of a resolved column in the flat builder:
`coalesce(r, [col[k]]) if col[k] else None` (guard written inline at
src/build.py lines 100-105). -/
def flatVal (row : Row) (c : Option String) : Option Cell :=
  match c with
  | some cc => if cc ≠ "" then coalesce row [cc] else none
  | none => none

/-- Rendering of a coalesced value in the flat builder's dict
(`manufacturer or ""` and similar, src/build.py lines 127-132): the value
if truthy, else the empty string. -/
def flatText (v : Option Cell) : String :=
  match v with
  | some c => if cellTruthy c then pyCellStr c else ""
  | none => ""

/-- Embedding of the per-row body of the flat builder's `main`
(src/build.py lines 99-137).  There is no `--no_clean_names`; titles are
never cleaned. -/
def build_record_flat (cfg : Config) (row : Row) : Record :=
  let col := detect_columns (rowCols row)
  let skuVal := flatVal row (col ColKey.sku)
  let titleVal := flatVal row (col ColKey.title)
  let manufacturerVal := flatVal row (col ColKey.manufacturer)
  let categoryVal := flatVal row (col ColKey.category)
  let partnoVal := flatVal row (col ColKey.partno)
  let priceStr := match col ColKey.price with
    | some c =>
      if c ≠ "" then
        match flatVal row (col ColKey.price) with
        | some v => (as_price v).getD ""
        | none => ""
      else ""
    | none => ""
  let stock := row_instock row col
  let features := dedupCI (featVals row)
  let skuStr := match skuVal with
    | some v => if cellNotna v then pyCellStr v else ""
    | none => ""
  { sku := skuStr
    title := flatTitle titleVal skuVal
    manufacturer := flatText manufacturerVal
    category := flatText categoryVal
    partno := flatText partnoVal
    price_str := priceStr
    stock_quantity := stock
    in_stock := cfg.min_stock ≤ stock
    stock_note := if stock > 0 then "In stock: " ++ toString stock else "Out of stock"
    features := features.take 8
    keywords := String.intercalate " "
      (features ++ ([skuVal, partnoVal, manufacturerVal, categoryVal].filterMap
        (fun v => match v with
          | some c => if cellTruthy c then some (pyCellStr c) else none
          | none => none))) }

/-- Specification-side stock contribution, written from the claim wording:
the resolved on-hand value is parsed permitting decimal notation and
truncated to an integer; a missing or unparsable value contributes 0. -/
def specOnhand (row : Row) (c : Option String) : Int :=
  match c with
  | none => 0
  | some cc =>
    match rowGet row cc with
    | .na => 0
    | .str s =>
      match pyFloat s.data with
      | some q => truncRat q
      | none => 0

/-- Specification-side stock aggregation (spec section 4.3,
`aggregate_stock(row, resolved_columns)`): the integer sum of the resolved
on-hand-new and on-hand-used contributions. -/
def aggregate_stock (row : Row) (col : ColKey → Option String) : Int :=
  specOnhand row (col ColKey.onhand_new) + specOnhand row (col ColKey.onhand_used)

/-- Claim-side feature-column pattern with an arbitrary optional trailing
letter (`^desc[0-9]+[a-z]?$` as the claim words it), applied to the lowered
and stripped name. -/
def matchDescAnyL (l : List Char) : Bool :=
  match l with
  | 'd' :: 'e' :: 's' :: 'c' :: r =>
    !(r.takeWhile isDigitC).isEmpty &&
      (r.dropWhile isDigitC == [] ||
        (match r.dropWhile isDigitC with
         | [c] => isLowerC c
         | _ => false))
  | _ => false

/-- Claim-side feature-column selection with the any-letter pattern. -/
def desc_cols_spec (cols : List String) : List String :=
  cols.filter (fun c => matchDescAnyL (pyLowerStrip c).data)

/-- Structural description of the code's feature-column pattern: the
literal `desc`, a nonempty digit run, then nothing or the single letter
`a`. -/
def descShape (l : List Char) : Prop :=
  ∃ ds t, l = 'd' :: 'e' :: 's' :: 'c' :: (ds ++ t) ∧ ds ≠ [] ∧
    (∀ c ∈ ds, isDigitC c = true) ∧ (t = [] ∨ t = ['a'])

/-- The claim's notion of an alias variant matching a schema:
case-insensitive, whitespace-trimmed name comparison. -/
def specMatch (cols : List String) (v : String) : Prop :=
  ∃ c ∈ cols, pyLowerStrip c = pyLowerStrip v

/-! ### Supporting lemmas -/

theorem pyStrip_eq_rdrop (l : List Char) :
    pyStrip l = (l.dropWhile isWS).rdropWhile isWS := rfl

theorem dropWhile_rdropWhile (l : List Char) :
    ((l.dropWhile isWS).rdropWhile isWS).dropWhile isWS =
      (l.dropWhile isWS).rdropWhile isWS := by
  rw [List.dropWhile_eq_self_iff]
  intro hl
  obtain ⟨t, ht⟩ := List.rdropWhile_prefix isWS (l.dropWhile isWS)
  have hlen : 0 < (l.dropWhile isWS).length := by
    rw [← ht, List.length_append]
    omega
  have hget : (l.dropWhile isWS).get ⟨0, hlen⟩ =
      ((l.dropWhile isWS).rdropWhile isWS).get ⟨0, hl⟩ := by
    simp only [List.get_eq_getElem]
    exact (List.IsPrefix.getElem ⟨t, ht⟩ hl).symm
  have := List.dropWhile_get_zero_not isWS l hlen
  rw [hget] at this
  exact this

theorem pyStrip_idem (l : List Char) : pyStrip (pyStrip l) = pyStrip l := by
  rw [pyStrip_eq_rdrop, pyStrip_eq_rdrop, dropWhile_rdropWhile,
    List.rdropWhile_idempotent]

theorem dedupAux_sublist (l : List String) :
    ∀ seen : List String, (dedupAux seen l).Sublist l := by
  induction l with
  | nil => intro seen; simp [dedupAux]
  | cons f rest ih =>
    intro seen
    unfold dedupAux
    by_cases h : seen.contains (lowerKey f)
    · simp only [h, if_true]
      exact (ih seen).trans (List.sublist_cons_self f rest)
    · simp only [h, if_false]
      exact (ih (lowerKey f :: seen)).cons₂ f

theorem dedupAux_spec (l : List String) :
    ∀ seen : List String,
      (dedupAux seen l).Pairwise (fun a b => lowerKey a ≠ lowerKey b) ∧
      ∀ x ∈ dedupAux seen l, seen.contains (lowerKey x) = false := by
  induction l with
  | nil => intro seen; simp [dedupAux]
  | cons f rest ih =>
    intro seen
    unfold dedupAux
    by_cases h : seen.contains (lowerKey f)
    · simp only [h, if_true]
      exact ih seen
    · simp only [h, if_false]
      obtain ⟨ihp, ihs⟩ := ih (lowerKey f :: seen)
      constructor
      · refine List.Pairwise.cons ?_ ihp
        intro x hx
        have := ihs x hx
        simp only [List.contains_cons] at this
        intro hk
        rw [hk] at this
        simp at this
      · intro x hx
        rcases List.mem_cons.mp hx with hx1 | hx2
        · rw [hx1]
          simpa using h
        · have := ihs x hx2
          simp only [List.contains_cons, Bool.or_eq_false_iff] at this
          exact this.2

theorem dedupCI_sublist (l : List String) : (dedupCI l).Sublist l :=
  dedupAux_sublist l []

theorem dedupCI_pairwise (l : List String) :
    (dedupCI l).Pairwise (fun a b => lowerKey a ≠ lowerKey b) :=
  (dedupAux_spec l []).1

theorem firstHit_ne_empty (cols : List String) :
    ∀ (vs : List String) (c : String), firstHit cols vs = some c → c ≠ "" := by
  intro vs
  induction vs with
  | nil => intro c h; simp [firstHit] at h
  | cons v rest ih =>
    intro c h
    unfold firstHit at h
    cases hf : find_col cols v with
    | none =>
      rw [hf] at h
      exact ih c h
    | some c0 =>
      rw [hf] at h
      dsimp only at h
      by_cases h0 : c0 == ""
      · rw [if_pos h0] at h
        exact ih c h
      · rw [if_neg h0] at h
        have : c0 = c := by injection h
        subst this
        simpa using h0

theorem detect_columns_ne_empty (cols : List String) (f : ColKey) (c : String)
    (h : detect_columns cols f = some c) : c ≠ "" :=
  firstHit_ne_empty cols (aliasOf f) c h

theorem cleanTitleL_shape (raw m : List Char) :
    ∃ x, cleanTitleL raw m =
      if (pyStrip x).isEmpty then "Untitled".data else pyStrip x :=
  ⟨_, rfl⟩

theorem cleanTitleL_ne_nil (raw m : List Char) : cleanTitleL raw m ≠ [] := by
  obtain ⟨x, hx⟩ := cleanTitleL_shape raw m
  rw [hx]
  by_cases h : (pyStrip x).isEmpty
  · rw [if_pos h]
    decide
  · rw [if_neg h]
    simpa [List.isEmpty_iff] using h

theorem cleanTitleL_strip_fixed (raw m : List Char) :
    pyStrip (cleanTitleL raw m) = cleanTitleL raw m := by
  obtain ⟨x, hx⟩ := cleanTitleL_shape raw m
  rw [hx]
  by_cases h : (pyStrip x).isEmpty
  · rw [if_pos h]
    decide
  · rw [if_neg h]
    exact pyStrip_idem x

theorem clean_title_ne_empty (raw : String) (m : Option String) :
    clean_title raw m ≠ "" := by
  cases m with
  | none =>
    unfold clean_title
    intro h
    exact cleanTitleL_ne_nil raw.data []
      (by simpa using congrArg String.data h)
  | some mm =>
    unfold clean_title
    intro h
    exact cleanTitleL_ne_nil raw.data mm.data
      (by simpa using congrArg String.data h)

theorem cleanTitleL_nil (m : List Char) : cleanTitleL [] m = "Untitled".data := by
  cases m with
  | nil => rfl
  | cons c cs => rfl

theorem onhandPart_eq_spec (row : Row) (o : Option String)
    (hne : ∀ c, o = some c → c ≠ "") :
    onhandPart row o = specOnhand row o := by
  cases o with
  | none => rfl
  | some c =>
    have hc : c ≠ "" := hne c rfl
    have hc2 : (c != "") = true := by simpa using hc
    cases hv : rowGet row c with
    | na => simp [onhandPart, specOnhand, hc2, hv, cellNotna]
    | str s => simp [onhandPart, specOnhand, hc2, hv, cellNotna, onhandVal]

theorem row_instock_eq_aggregate (row : Row) (cols : List String) :
    row_instock row (detect_columns cols) =
      aggregate_stock row (detect_columns cols) := by
  unfold row_instock aggregate_stock
  rw [onhandPart_eq_spec row _
      (fun c h => detect_columns_ne_empty cols ColKey.onhand_new c h),
    onhandPart_eq_spec row _
      (fun c h => detect_columns_ne_empty cols ColKey.onhand_used c h)]

theorem build_record_stock (cfg : Config) (row : Row) :
    (build_record cfg row).stock_quantity =
      row_instock row (detect_columns (rowCols row)) := rfl

theorem build_record_flat_stock (cfg : Config) (row : Row) :
    (build_record_flat cfg row).stock_quantity =
      row_instock row (detect_columns (rowCols row)) := rfl

theorem build_record_title (cfg : Config) (row : Row) :
    (build_record cfg row).title =
      (if cfg.no_clean_names then
        (if raw_title_of row (detect_columns (rowCols row) ColKey.title) == ""
         then "Untitled"
         else raw_title_of row (detect_columns (rowCols row) ColKey.title))
       else clean_title (raw_title_of row (detect_columns (rowCols row) ColKey.title))
         (some (textField row (detect_columns (rowCols row) ColKey.manufacturer)))) := rfl

theorem build_record_flat_title (cfg : Config) (row : Row) :
    (build_record_flat cfg row).title =
      flatTitle (flatVal row (detect_columns (rowCols row) ColKey.title))
        (flatVal row (detect_columns (rowCols row) ColKey.sku)) := rfl

theorem build_record_features (cfg : Config) (row : Row) :
    (build_record cfg row).features =
      (dedupCI ((featVals row).map clean_feature)).take 8 := rfl

theorem build_record_flat_features (cfg : Config) (row : Row) :
    (build_record_flat cfg row).features = (dedupCI (featVals row)).take 8 := rfl

theorem string_append_ne_empty (x : String) : "SKU " ++ x ≠ "" := by
  intro h
  have := congrArg String.data h
  simp [String.data_append] at this

theorem flatTitle_ne_empty (t s : Option Cell) : flatTitle t s ≠ "" := by
  unfold flatTitle
  cases s with
  | none => simp
  | some v =>
    cases hv : cellTruthy v with
    | false => simp [hv]
    | true =>
      simp only [hv, if_true]
      cases t with
      | none => exact string_append_ne_empty _
      | some tv =>
        cases htv : cellTruthy tv with
        | false => simpa [htv] using string_append_ne_empty _
        | true =>
          simp only [htv, if_true]
          cases tv with
          | na => decide
          | str s2 =>
            have : s2 ≠ "" := by simpa [cellTruthy] using htv
            simpa [pyCellStr] using this

theorem build_record_title_ne_empty (cfg : Config) (row : Row) :
    (build_record cfg row).title ≠ "" := by
  rw [build_record_title]
  by_cases hn : cfg.no_clean_names = true
  · rw [if_pos hn]
    by_cases h : raw_title_of row (detect_columns (rowCols row) ColKey.title) == ""
    · simp [h]
    · simp only [h, if_false]
      simpa using h
  · rw [if_neg hn]
    exact clean_title_ne_empty _ _

theorem take8_pairwise (l : List String) :
    ((dedupCI l).take 8).Pairwise (fun a b => lowerKey a ≠ lowerKey b) :=
  (dedupCI_pairwise l).sublist (List.take_sublist 8 (dedupCI l))

theorem take8_sublist (l : List String) : ((dedupCI l).take 8).Sublist l :=
  (List.take_sublist 8 (dedupCI l)).trans (dedupCI_sublist l)

/-- Claim C1: for every raw row and configuration, record building is total
(in this embedding every extraction and coercion is a total function whose
failure branches yield the source's defaults) and yields exactly one
well-formed record per row: its title is nonempty and its feature list has
at most 8 entries with no case-insensitive duplicates.  This holds for both
builder variants. -/
theorem claim_C1_record_wellformed : ∀ (cfg : Config) (row : Row),
    ((build_record cfg row).title ≠ "" ∧
      (build_record cfg row).features.length ≤ 8 ∧
      (build_record cfg row).features.Pairwise
        (fun a b => lowerKey a ≠ lowerKey b)) ∧
    ((build_record_flat cfg row).title ≠ "" ∧
      (build_record_flat cfg row).features.length ≤ 8 ∧
      (build_record_flat cfg row).features.Pairwise
        (fun a b => lowerKey a ≠ lowerKey b)) := by
  intro cfg row
  refine ⟨⟨build_record_title_ne_empty cfg row, ?_, ?_⟩,
    ⟨?_, ?_, ?_⟩⟩
  · rw [build_record_features]
    exact List.length_take_le 8 _
  · rw [build_record_features]
    exact take8_pairwise _
  · rw [build_record_flat_title]
    exact flatTitle_ne_empty _ _
  · rw [build_record_flat_features]
    exact List.length_take_le 8 _
  · rw [build_record_flat_features]
    exact take8_pairwise _

theorem clean_title_empty_raw (m : Option String) : clean_title "" m = "Untitled" := by
  cases m with
  | none =>
    unfold clean_title
    rw [show ("" : String).data = [] from rfl]
    rw [cleanTitleL_nil]
  | some s =>
    unfold clean_title
    rw [show ("" : String).data = [] from rfl]
    rw [cleanTitleL_nil]

/-- Claim C2 counterexample: with title normalization disabled
(`--no_clean_names`) the builder performs no whitespace trim at all: a raw
title consisting of three spaces is kept verbatim, so the record title is
whitespace-only, contradicting both the trim wording and the invariant that
the title is never whitespace-only. -/
theorem claim_C2_counterexample :
    (build_record (Config.mk 1 true) [("title", Cell.str "   ")]).title = "   " ∧
    pyStrip (String.data "   ") = [] := by
  constructor
  · rfl
  · decide

/-- Claim C2 as amended: the record title is never the empty string; with
normalization enabled it is never whitespace-only; with normalization
disabled the raw title is used verbatim when it is nonempty (no trim is
applied, so it may be whitespace-only) and `"Untitled"` replaces only the
empty raw title. -/
theorem claim_C2_title_nonblank : ∀ (cfg : Config) (row : Row),
    (build_record cfg row).title ≠ "" ∧
    (cfg.no_clean_names = false →
      pyStrip (build_record cfg row).title.data ≠ []) ∧
    (cfg.no_clean_names = true →
      (build_record cfg row).title =
        (if raw_title_of row (detect_columns (rowCols row) ColKey.title) = ""
         then "Untitled"
         else raw_title_of row (detect_columns (rowCols row) ColKey.title))) := by
  intro cfg row
  refine ⟨build_record_title_ne_empty cfg row, ?_, ?_⟩
  · intro hn
    rw [build_record_title, if_neg (by simp [hn])]
    show pyStrip (cleanTitleL _ _) ≠ []
    rw [cleanTitleL_strip_fixed]
    exact cleanTitleL_ne_nil _ _
  · intro hn
    rw [build_record_title, if_pos hn]
    by_cases h : raw_title_of row (detect_columns (rowCols row) ColKey.title) = ""
    · rw [if_pos h, if_pos (by simpa using h)]
    · rw [if_neg h, if_neg (by simpa using h)]

/-- Claim C2 witness: with the default configuration on a concrete row the
title is nonempty and not whitespace-only. -/
theorem claim_C2_witness :
    (build_record defaultConfig [("title", Cell.str " 9 MM ")]).title ≠ "" ∧
    pyStrip (build_record defaultConfig
      [("title", Cell.str " 9 MM ")]).title.data ≠ [] :=
  ⟨(claim_C2_title_nonblank defaultConfig _).1,
   (claim_C2_title_nonblank defaultConfig _).2.1 rfl⟩

/-- Claim C3 counterexample: in the package builder
(src/catalog_builder/build.py) an absent title column always yields the
placeholder `"Untitled"`, even when a sku is present — there is no
`"SKU " + sku` fallback in that variant. -/
theorem claim_C3_counterexample :
    (build_record defaultConfig [("sku", Cell.str "A1")]).title = "Untitled" ∧
    (build_record defaultConfig [("sku", Cell.str "A1")]).sku = "A1" := by
  constructor
  · rfl
  · rfl

/-- Claim C3 as amended: the `"SKU " + sku` fallback exists only in the
flat builder (src/build.py): there, an unresolved title column with a
resolved, truthy sku yields `"SKU " + sku`, and `"Untitled"` when the sku
column is unresolved too.  The package builder yields `"Untitled"` for
every row whose title column is unresolved, whatever the sku. -/
theorem claim_C3_placeholders : ∀ (cfg : Config) (row : Row),
    (detect_columns (rowCols row) ColKey.title = none →
      (build_record cfg row).title = "Untitled") ∧
    (detect_columns (rowCols row) ColKey.title = none →
      ∀ v, flatVal row (detect_columns (rowCols row) ColKey.sku) = some v →
        cellTruthy v = true →
        (build_record_flat cfg row).title = "SKU " ++ pyCellStr v) ∧
    (detect_columns (rowCols row) ColKey.title = none →
      detect_columns (rowCols row) ColKey.sku = none →
      (build_record_flat cfg row).title = "Untitled") := by
  intro cfg row
  refine ⟨?_, ?_, ?_⟩
  · intro h
    rw [build_record_title, h]
    show (if cfg.no_clean_names = true then _ else clean_title "" _) = _
    by_cases hn : cfg.no_clean_names = true
    · rw [if_pos hn]
      rfl
    · rw [if_neg hn]
      exact clean_title_empty_raw _
  · intro h v hv htr
    rw [build_record_flat_title, h]
    show flatTitle (flatVal row none) _ = _
    rw [hv]
    unfold flatTitle flatVal
    simp [htr]
  · intro h hsku
    rw [build_record_flat_title, h, hsku]
    rfl

/-- Claim C3 witness: concrete rows exercising each amended case. -/
theorem claim_C3_witness :
    (build_record_flat defaultConfig [("sku", Cell.str "A1")]).title = "SKU A1" ∧
    (build_record defaultConfig [("sku", Cell.str "A1")]).title = "Untitled" ∧
    (build_record_flat defaultConfig []).title = "Untitled" := by
  refine ⟨?_, (claim_C3_placeholders defaultConfig _).1 (by decide),
    (claim_C3_placeholders defaultConfig _).2.2 (by decide) (by decide)⟩
  have := (claim_C3_placeholders defaultConfig [("sku", Cell.str "A1")]).2.1
    (by decide) (Cell.str "A1") (by decide) (by decide)
  simpa using this

/-- Claim C4: for both builders the record's stock quantity is exactly the
specification-side aggregate: the integer sum of the resolved on-hand-new
and on-hand-used values, each parsed as a decimal and truncated toward
zero, missing or unparsable values contributing 0; in particular
`on_hand_new="3"` with `on_hand_used="2.7"` gives 5. -/
theorem claim_C4_stock_sum :
    (∀ (cfg : Config) (row : Row),
      (build_record cfg row).stock_quantity =
        aggregate_stock row (detect_columns (rowCols row)) ∧
      (build_record_flat cfg row).stock_quantity =
        aggregate_stock row (detect_columns (rowCols row))) ∧
    (build_record defaultConfig
      [("qty", Cell.str "3"), ("onhand used", Cell.str "2.7")]).stock_quantity
        = 5 := by
  constructor
  · intro cfg row
    rw [build_record_stock, build_record_flat_stock]
    exact ⟨row_instock_eq_aggregate row _, row_instock_eq_aggregate row _⟩
  · decide

/-- Claim C6 counterexample: a negative on-hand value is not clamped: a row
with `qty="-5"` builds a record whose stock quantity is the negative
integer -5, contradicting `stock_quantity ≥ 0`. -/
theorem claim_C6_counterexample :
    (build_record defaultConfig [("qty", Cell.str "-5")]).stock_quantity = -5 ∧
    ¬ (0 ≤ (build_record defaultConfig
      [("qty", Cell.str "-5")]).stock_quantity) := by
  constructor
  · decide
  · decide

/-- Claim C6 as amended: the stock quantity is an integer, and it is
non-negative whenever both resolved on-hand contributions are non-negative;
a negative source value propagates into a negative sum (the unclamped
behaviour the spec flags as an open question). -/
theorem claim_C6_stock_nonneg : ∀ (cfg : Config) (row : Row),
    0 ≤ specOnhand row (detect_columns (rowCols row) ColKey.onhand_new) →
    0 ≤ specOnhand row (detect_columns (rowCols row) ColKey.onhand_used) →
    0 ≤ (build_record cfg row).stock_quantity ∧
    0 ≤ (build_record_flat cfg row).stock_quantity := by
  intro cfg row h1 h2
  rw [build_record_stock, build_record_flat_stock, row_instock_eq_aggregate]
  unfold aggregate_stock
  omega

/-- Claim C6 witness: a concrete row with non-negative contributions. -/
theorem claim_C6_witness :
    0 ≤ specOnhand [("qty", Cell.str "3")]
      (detect_columns (rowCols [("qty", Cell.str "3")]) ColKey.onhand_new) ∧
    0 ≤ specOnhand [("qty", Cell.str "3")]
      (detect_columns (rowCols [("qty", Cell.str "3")]) ColKey.onhand_used) ∧
    0 ≤ (build_record defaultConfig [("qty", Cell.str "3")]).stock_quantity :=
  ⟨by decide, by decide,
   (claim_C6_stock_nonneg defaultConfig [("qty", Cell.str "3")]
     (by decide) (by decide)).1⟩

/-- Claim C5: for every row and configuration the record's feature list has
length at most 8, no two entries equal under case-insensitive comparison,
and is an order-preserving subsequence of the candidate list taken from the
desc columns in column order (the non-missing, non-blank stripped values;
in the package builder each candidate passes the feature normalizer first,
in the flat builder the stripped raw value is kept). -/
theorem claim_C5_features_invariant : ∀ (cfg : Config) (row : Row),
    ((build_record cfg row).features.length ≤ 8 ∧
      (build_record cfg row).features.Pairwise
        (fun a b => lowerKey a ≠ lowerKey b) ∧
      (build_record cfg row).features.Sublist
        ((featVals row).map clean_feature)) ∧
    ((build_record_flat cfg row).features.length ≤ 8 ∧
      (build_record_flat cfg row).features.Pairwise
        (fun a b => lowerKey a ≠ lowerKey b) ∧
      (build_record_flat cfg row).features.Sublist (featVals row)) := by
  intro cfg row
  rw [build_record_features, build_record_flat_features]
  exact ⟨⟨List.length_take_le 8 _, take8_pairwise _, take8_sublist _⟩,
    ⟨List.length_take_le 8 _, take8_pairwise _, take8_sublist _⟩⟩

theorem ws_of_eq_space (c : Char) (h : c = ' ') : isWS c = true := by
  subst h
  decide

theorem isDigit_not_ws (c : Char) (h : isDigitC c = true) : isWS c = false := by
  cases hw : isWS c with
  | false => rfl
  | true =>
    exfalso
    have := hw
    simp only [isWS, Bool.or_eq_true, beq_iff_eq] at this
    rcases this with ((((rfl | rfl) | rfl) | rfl) | rfl) | rfl <;>
      exact absurd h (by decide)

theorem unitSubAux_skip_all (u1 u2 : Char) (l : List Char) :
    ∀ (k : Nat) (b : Bool), l.length ≤ k → unitSubAux u1 u2 k b l = [] := by
  induction l with
  | nil =>
    intro k b _
    cases k <;> rfl
  | cons c rest ih =>
    intro k b hk
    cases k with
    | zero => simp at hk
    | succ n =>
      show unitSubAux u1 u2 n (isWordC c) rest = []
      exact ih n (isWordC c) (by simpa using Nat.lt_succ_iff.mp (Nat.lt_of_lt_of_le (Nat.lt_succ_self _) hk))

theorem unitMatch_eval_space (u1 u2 : Char) (d : List Char)
    (hd : ∀ c ∈ d, isDigitC c = true) (hlen : d.length = 2 ∨ d.length = 3)
    (a b : Char) (hla : toLowerC a = u1) (hlb : toLowerC b = u2)
    (hwsa : isWS a = false) :
    unitMatch u1 u2 (d ++ ' ' :: a :: b :: []) = some (d, d.length + 3) := by
  have hA : ((d ++ ' ' :: a :: b :: []).takeWhile isDigitC) = d := by
    rw [List.takeWhile_append_of_pos (by simpa using hd)]
    simp [List.takeWhile_cons, show isDigitC ' ' = false from by decide]
  have hB : ((d ++ ' ' :: a :: b :: []).dropWhile isDigitC) =
      ' ' :: a :: b :: [] := by
    rw [List.dropWhile_append_of_pos (by simpa using hd)]
    simp [List.dropWhile_cons, show isDigitC ' ' = false from by decide]
  have hC : ((' ' :: a :: b :: []).takeWhile isWS) = [' '] := by
    simp [List.takeWhile_cons, show isWS ' ' = true from by decide, hwsa]
  have hD : ((' ' :: a :: b :: []).dropWhile isWS) = a :: b :: [] := by
    simp [List.dropWhile_cons, show isWS ' ' = true from by decide, hwsa]
  have hlc : (d.length == 2 || d.length == 3) = true := by
    rcases hlen with h | h <;> simp [h]
  simp only [unitMatch, hA, hB, hC, hD, hlc, if_true]
  simp [hla, hlb]

theorem unitMatch_eval_nospace (u1 u2 : Char) (d : List Char)
    (hd : ∀ c ∈ d, isDigitC c = true) (hlen : d.length = 2 ∨ d.length = 3)
    (a b : Char) (hla : toLowerC a = u1) (hlb : toLowerC b = u2)
    (hwsa : isWS a = false) (hda : isDigitC a = false) :
    unitMatch u1 u2 (d ++ a :: b :: []) = some (d, d.length + 2) := by
  have hA : ((d ++ a :: b :: []).takeWhile isDigitC) = d := by
    rw [List.takeWhile_append_of_pos (by simpa using hd)]
    simp [List.takeWhile_cons, hda]
  have hB : ((d ++ a :: b :: []).dropWhile isDigitC) = a :: b :: [] := by
    rw [List.dropWhile_append_of_pos (by simpa using hd)]
    simp [List.dropWhile_cons, hda]
  have hC : ((a :: b :: []).takeWhile isWS) = [] := by
    simp [List.takeWhile_cons, hwsa]
  have hD : ((a :: b :: []).dropWhile isWS) = a :: b :: [] := by
    simp [List.dropWhile_cons, hwsa]
  have hlc : (d.length == 2 || d.length == 3) = true := by
    rcases hlen with h | h <;> simp [h]
  simp only [unitMatch, hA, hB, hC, hD, hlc, if_true]
  simp [hla, hlb]

theorem unitSubAux_start (u1 u2 c : Char) (rest ds : List Char) (n : Nat)
    (hc : isDigitC c = true)
    (hm : unitMatch u1 u2 (c :: rest) = some (ds, n))
    (hn : rest.length ≤ n - 1) :
    unitSubAux u1 u2 0 false (c :: rest) = ds ++ [u1, u2] := by
  show (if !false && isDigitC c then
      match unitMatch u1 u2 (c :: rest) with
      | some (ds, n) => ds ++ u1 :: u2 :: unitSubAux u1 u2 (n - 1) (isWordC c) rest
      | none => c :: unitSubAux u1 u2 0 (isWordC c) rest
    else c :: unitSubAux u1 u2 0 (isWordC c) rest) = ds ++ [u1, u2]
  rw [hm]
  simp only [hc, Bool.not_false, Bool.true_and, if_true]
  rw [unitSubAux_skip_all u1 u2 rest (n - 1) (isWordC c) hn]

/-- Claim C7 counterexample: the caliber rewrite only fires on 2-3 digit
numbers (`\d{2,3}`), so the single-digit `"9 MM"` is not fused: title
normalization leaves `"9 Mm"` (the recasing step capitalizes the `mm`
token), not the claimed `"9mm"`. -/
theorem claim_C7_counterexample :
    clean_title "9 MM" none = "9 Mm" ∧ clean_title "9 MM" none ≠ "9mm" := by
  constructor
  · rfl
  · decide

/-- Claim C7 as amended: in the caliber-normalization step a number of two
or three digits followed by optional whitespace and a case-insensitive unit
(`MM` or `GR`) with a word boundary on each side is rewritten to the digits
immediately followed by the lowercase unit.  One-digit numbers (see the
counterexample) and numbers of four or more digits are left unchanged. -/
theorem claim_C7_unit_rewrite : ∀ (d : List Char),
    (d.length = 2 ∨ d.length = 3) → (∀ c ∈ d, isDigitC c = true) →
    subMM (d ++ (' ' :: 'M' :: 'M' :: [])) = d ++ ('m' :: 'm' :: []) ∧
    subMM (d ++ ('M' :: 'M' :: [])) = d ++ ('m' :: 'm' :: []) ∧
    subGR (d ++ (' ' :: 'G' :: 'R' :: [])) = d ++ ('g' :: 'r' :: []) := by
  intro d hlen hd
  obtain ⟨c, d', rfl⟩ : ∃ c d', d = c :: d' := by
    cases d with
    | nil => rcases hlen with h | h <;> simp at h
    | cons c d' => exact ⟨c, d', rfl⟩
  have hc : isDigitC c = true := hd c (by simp)
  refine ⟨?_, ?_, ?_⟩
  · have hm := unitMatch_eval_space 'm' 'm' (c :: d') hd hlen 'M' 'M'
      (by decide) (by decide) (by decide)
    rw [List.cons_append] at hm
    have hstep := unitSubAux_start 'm' 'm' c (d' ++ ' ' :: 'M' :: 'M' :: [])
      (c :: d') ((c :: d').length + 3) hc hm
      (by simp [List.length_append])
    simpa [subMM, List.cons_append] using hstep
  · have hm := unitMatch_eval_nospace 'm' 'm' (c :: d') hd hlen 'M' 'M'
      (by decide) (by decide) (by decide) (by decide)
    rw [List.cons_append] at hm
    have hstep := unitSubAux_start 'm' 'm' c (d' ++ 'M' :: 'M' :: [])
      (c :: d') ((c :: d').length + 2) hc hm
      (by simp [List.length_append])
    simpa [subMM, List.cons_append] using hstep
  · have hm := unitMatch_eval_space 'g' 'r' (c :: d') hd hlen 'G' 'R'
      (by decide) (by decide) (by decide)
    rw [List.cons_append] at hm
    have hstep := unitSubAux_start 'g' 'r' c (d' ++ ' ' :: 'G' :: 'R' :: [])
      (c :: d') ((c :: d').length + 3) hc hm
      (by simp [List.length_append])
    simpa [subGR, List.cons_append] using hstep

/-- Claim C7 witness: the rewrite fires on the three-digit `115`. -/
theorem claim_C7_witness :
    subMM (String.data "115 MM") = String.data "115mm" ∧
    subGR (String.data "115 GR") = String.data "115gr" :=
  ⟨(claim_C7_unit_rewrite ['1', '1', '5'] (by decide) (by decide)).1,
   (claim_C7_unit_rewrite ['1', '1', '5'] (by decide) (by decide)).2.2⟩

theorem matchDesc_iff (l : List Char) : matchDesc l = true ↔ descShape l := by
  unfold matchDesc descShape
  constructor
  · intro h
    simp only [Bool.and_eq_true, beq_iff_eq, Bool.or_eq_true,
      Bool.not_eq_true', List.isEmpty_eq_false] at h
    obtain ⟨h4, hne, ht⟩ := h
    refine ⟨(l.drop 4).takeWhile isDigitC, (l.drop 4).dropWhile isDigitC,
      ?_, hne, ?_, ?_⟩
    · conv_lhs => rw [← List.take_append_drop 4 l]
      rw [h4, List.takeWhile_append_dropWhile]
      rfl
    · intro c hc
      exact List.mem_takeWhile_imp hc
    · exact ht
  · rintro ⟨ds, t, rfl, hds, hdig, hT⟩
    have htw : ((ds ++ t).takeWhile isDigitC) = ds := by
      rcases hT with rfl | rfl
      · rw [List.takeWhile_append_of_pos (by simpa using hdig)]
        simp
      · rw [List.takeWhile_append_of_pos (by simpa using hdig)]
        simp [List.takeWhile_cons, show isDigitC 'a' = false from by decide]
    have hdw : ((ds ++ t).dropWhile isDigitC) = t := by
      rcases hT with rfl | rfl
      · rw [List.dropWhile_append_of_pos (by simpa using hdig)]
        simp
      · rw [List.dropWhile_append_of_pos (by simpa using hdig)]
        simp [List.dropWhile_cons, show isDigitC 'a' = false from by decide]
    have hdrop : ('d' :: 'e' :: 's' :: 'c' :: (ds ++ t)).drop 4 = ds ++ t := rfl
    have htake : ('d' :: 'e' :: 's' :: 'c' :: (ds ++ t)).take 4 =
        ['d', 'e', 's', 'c'] := rfl
    rw [htake, hdrop, htw, hdw]
    have hds2 : ds.isEmpty = false := by simpa using hds
    rcases hT with rfl | rfl <;> simp [hds2]

/-- Claim C8 counterexample: the source pattern is `^desc\d+a?$` — the
optional trailing letter is only the literal `a`.  The column `desc1b`
matches the claim's `^desc[0-9]+[a-z]?$` but is not selected by the code. -/
theorem claim_C8_counterexample :
    desc_cols ["desc1b"] = [] ∧ desc_cols_spec ["desc1b"] = ["desc1b"] := by
  constructor
  · decide
  · decide

/-- Claim C8 as amended: the feature-column set consists exactly of the raw
columns whose lowered, stripped name is `desc`, a nonempty digit run, and
optionally the single trailing letter `a` (not an arbitrary letter), kept
in original column order. -/
theorem claim_C8_desc_columns : ∀ (cols : List String),
    (desc_cols cols).Sublist cols ∧
    ∀ c : String, c ∈ desc_cols cols ↔
      c ∈ cols ∧ descShape (pyLowerStrip c).data := by
  intro cols
  refine ⟨List.filter_sublist cols, ?_⟩
  intro c
  unfold desc_cols
  rw [List.mem_filter]
  constructor
  · rintro ⟨hm, hp⟩
    exact ⟨hm, (matchDesc_iff _).mp hp⟩
  · rintro ⟨hm, hp⟩
    exact ⟨hm, (matchDesc_iff _).mpr hp⟩

/-- Claim C8 witness: the column `desc12a` is selected and has the amended
shape. -/
theorem claim_C8_witness :
    "desc12a" ∈ desc_cols ["desc12a", "price"] ∧
    descShape (pyLowerStrip "desc12a").data := by
  have hsh : descShape (pyLowerStrip "desc12a").data :=
    ⟨['1', '2'], ['a'], rfl, by decide, by decide, Or.inr rfl⟩
  exact ⟨((claim_C8_desc_columns ["desc12a", "price"]).2 "desc12a").mpr
    ⟨by decide, hsh⟩, hsh⟩

theorem find_col_none_iff (cols : List String) (v : String) :
    find_col cols v = none ↔ ¬ specMatch cols v := by
  unfold find_col lowerDictGet specMatch
  rw [List.find?_eq_none]
  constructor
  · intro h hex
    obtain ⟨c, hc, he⟩ := hex
    exact absurd (by simpa using he) (by simpa using h c (List.mem_reverse.mpr hc))
  · intro h c hc he
    exact h ⟨c, List.mem_reverse.mp hc, by simpa using he⟩

theorem find_col_some_spec (cols : List String) (v c : String)
    (h : find_col cols v = some c) :
    c ∈ cols ∧ pyLowerStrip c = pyLowerStrip v := by
  unfold find_col lowerDictGet at h
  refine ⟨List.mem_reverse.mp (List.mem_of_find?_eq_some h), ?_⟩
  have := List.find?_some h
  simpa using this

theorem firstHit_spec (cols : List String) : ∀ (vs : List String),
    (∀ v ∈ vs, pyLowerStrip v ≠ "") →
    (firstHit cols vs = none ↔ ∀ v ∈ vs, ¬ specMatch cols v) ∧
    (∀ c, firstHit cols vs = some c →
      c ∈ cols ∧
      ∃ i, ∃ hi : i < vs.length,
        pyLowerStrip c = pyLowerStrip (vs.get ⟨i, hi⟩) ∧
        ∀ v ∈ vs.take i, ¬ specMatch cols v) := by
  intro vs
  induction vs with
  | nil =>
    intro _
    constructor
    · simp [firstHit]
    · intro c hc
      simp [firstHit] at hc
  | cons v rest ih =>
    intro hne
    have hnv : pyLowerStrip v ≠ "" := hne v (by simp)
    have hrest := ih (fun w hw => hne w (by simp [hw]))
    cases hf : find_col cols v with
    | none =>
      have hnm : ¬ specMatch cols v := (find_col_none_iff cols v).mp hf
      have heq : firstHit cols (v :: rest) = firstHit cols rest := by
        show (match find_col cols v with
          | some c => if c == "" then firstHit cols rest else some c
          | none => firstHit cols rest) = firstHit cols rest
        rw [hf]
      constructor
      · rw [heq, hrest.1]
        constructor
        · intro h w hw
          rcases List.mem_cons.mp hw with rfl | hw2
          · exact hnm
          · exact h w hw2
        · intro h w hw
          exact h w (by simp [hw])
      · intro c hc
        rw [heq] at hc
        obtain ⟨hmem, i, hi, hkey, htake⟩ := hrest.2 c hc
        refine ⟨hmem, i + 1, by simpa using Nat.succ_lt_succ hi, hkey, ?_⟩
        intro w hw
        rcases List.mem_cons.mp (by simpa [List.take_succ_cons] using hw)
          with rfl | hw2
        · exact hnm
        · exact htake w hw2
    | some c0 =>
      obtain ⟨hc0mem, hc0key⟩ := find_col_some_spec cols v c0 hf
      have hc0ne : c0 ≠ "" := by
        intro hc0
        rw [hc0] at hc0key
        exact hnv (by simpa using hc0key.symm)
      have heq : firstHit cols (v :: rest) = some c0 := by
        show (match find_col cols v with
          | some c => if c == "" then firstHit cols rest else some c
          | none => firstHit cols rest) = some c0
        rw [hf]
        simp [hc0ne]
      constructor
      · rw [heq]
        constructor
        · intro h
          exact absurd h (by simp)
        · intro h
          exact absurd ⟨c0, hc0mem, hc0key⟩ (h v (by simp))
      · intro c hc
        rw [heq] at hc
        have : c0 = c := by injection hc
        subst this
        exact ⟨hc0mem, 0, by simp, by simpa using hc0key, by simp⟩

/-- Claim C9: for each canonical field, resolution tries the alias variants
in declared priority order under case-insensitive whitespace-trimmed
comparison: when no variant matches the field resolves to `none` (absent,
not an error), and when it resolves to a column, that column matches some
variant no earlier variant of the field matches. -/
theorem claim_C9_alias_priority : ∀ (cols : List String) (f : ColKey),
    (detect_columns cols f = none ↔ ∀ v ∈ aliasOf f, ¬ specMatch cols v) ∧
    (∀ c, detect_columns cols f = some c →
      c ∈ cols ∧
      ∃ i, ∃ hi : i < (aliasOf f).length,
        pyLowerStrip c = pyLowerStrip ((aliasOf f).get ⟨i, hi⟩) ∧
        ∀ v ∈ (aliasOf f).take i, ¬ specMatch cols v) := by
  intro cols f
  have hne : ∀ v ∈ aliasOf f, pyLowerStrip v ≠ "" := by
    cases f <;> decide
  exact firstHit_spec cols (aliasOf f) hne

/-- Claim C9 witness: a schema containing both `onhand` and `qty` resolves
the on-hand-new field to the `qty` column, the variant declared earlier. -/
theorem claim_C9_witness :
    detect_columns ["onhand", "qty"] ColKey.onhand_new = some "qty" ∧
    ("qty" ∈ ["onhand", "qty"] ∧
      ∃ i, ∃ hi : i < (aliasOf ColKey.onhand_new).length,
        pyLowerStrip "qty" =
          pyLowerStrip ((aliasOf ColKey.onhand_new).get ⟨i, hi⟩) ∧
        ∀ v ∈ (aliasOf ColKey.onhand_new).take i,
          ¬ specMatch ["onhand", "qty"] v) :=
  ⟨by decide,
   (claim_C9_alias_priority ["onhand", "qty"] ColKey.onhand_new).2 "qty"
     (by decide)⟩
